import Mathlib

set_option maxHeartbeats 1000000

/-!
Verification of the canonical-data-to-test-suite generator in
`src/util/exercise/src/cmd/generate.rs` (functions `parse_case` and
`generate_tests_from_canonical_data`).

Embedding notes:
  - JSON values (`serde_json::Value`) are the inductive `Json`; numbers are
    modelled as integers (no claim touches numeric precision).
  - The mutable `HashMap<String, String>` of property stubs is modelled as an
    insertion-ordered association list.  Rust's `std::collections::HashMap`
    iterates its entries in an unspecified, per-instance randomized order, so
    the one place the map is iterated (`property_functions.values()` in
    `generate_tests_from_canonical_data`) takes an explicit enumeration
    parameter `values_order`; any permutation of the entries is a possible
    enumeration of the real map.
  - `exercise::generate_test_function` and `exercise::generate_property_body`
    live in the `exercise` crate, whose source is not part of the given
    sources; they are modelled from the spec (see their doc comments).  The
    Rust code stores each generated test as an already rendered string and
    activates the first one by deleting the literal text `#[ignore]\n`; here a
    generated unit is a record carrying an `ignored` flag, activation clears
    the flag, and `renderTestUnit` emits the marker, which the spec-modelled
    renderer places exactly once per unit.
  - File-system collaborators (`update_cargo_toml_version`, `rustfmt`, path
    handling) are outside the core per the spec; the content of the tests
    file is tracked explicitly: the header is written to it before parsing
    (`fs::write` in the source), stubs and tests are appended on success.
-/

/-- JSON values as inspected by the generator (`serde_json::Value`), with
numbers modelled as integers. -/
inductive Json where
  | null
  | bool (b : Bool)
  | num (n : Int)
  | str (s : String)
  | arr (elems : List Json)
  | obj (fields : List (String × Json))

/-- First field with the given key, as object lookup does in `serde_json`. -/
def lookupField : List (String × Json) → String → Option Json
  | [], _ => none
  | (k, v) :: fields, key => if k == key then some v else lookupField fields key

/-- `Value::get`: field lookup on objects, `none` on every other shape. -/
def Json.get : Json → String → Option Json
  | .obj fields, key => lookupField fields key
  | _, _ => none

theorem lookupField_sizeOf {fields : List (String × Json)} {key : String} {v : Json}
    (h : lookupField fields key = some v) : sizeOf v < sizeOf fields := by
  induction fields with
  | nil => simp [lookupField] at h
  | cons kv rest ih =>
    obtain ⟨k, w⟩ := kv
    by_cases hk : (k == key) = true
    · simp only [lookupField, hk, if_true, Option.some.injEq] at h
      subst h
      simp only [List.cons.sizeOf_spec, Prod.mk.sizeOf_spec]
      omega
    · simp only [lookupField, hk, if_false, Bool.false_eq_true] at h
      have := ih h
      simp only [List.cons.sizeOf_spec, Prod.mk.sizeOf_spec]
      omega

theorem Json.get_sizeOf {c : Json} {key : String} {v : Json}
    (h : c.get key = some v) : sizeOf v < sizeOf c := by
  cases c <;> simp only [Json.get] at h <;> try exact Option.noConfusion h
  case obj fields =>
    have := lookupField_sizeOf h
    simp only [Json.obj.sizeOf_spec]
    omega

/-- Failure conditions of the generation run (`failure::Error` in the source,
produced by the `get!` / `val_as!` macros and by the test-unit generator). -/
inductive GenErr where
  | missingField
  | notAnArray
  | notAString
  | missingDescription
deriving DecidableEq, Repr

/-- One generated test unit.  The Rust code keeps it as a rendered string
containing the `#[ignore]` marker; the record keeps the marker as the
`ignored` flag, emitted by `renderTestUnit`. -/
structure TestUnit where
  name : String
  property : String
  ignored : Bool
  body : String
deriving DecidableEq, Repr

/-- The two accumulators threaded through `parse_case`:
`property_functions: HashMap<String, String>` (as an insertion-ordered
association list) and `test_functions: Vec<String>`. -/
structure ParseState where
  property_functions : List (String × String)
  test_functions : List TestUnit
deriving Repr

/-- Result of one generation run: the final content of the tests file (what
is left on disk) and the reported error, if any. -/
structure GenOutput where
  fileContent : String
  error : Option GenErr
deriving DecidableEq, Repr

/-- Modelled from the spec (§4.2, §4.3): transliteration of a description or
property name into an identifier — lower-case, non-identifier characters
replaced by the separator.  The real rule lives in the `exercise` crate,
outside the given sources. -/
def sanitizeIdent (s : String) : String :=
  String.mk (s.data.map (fun c => if c.isAlphanum then c.toLower else '_'))

/-- Modelled from the spec: `exercise::generate_property_body` (the
`exercise` crate is not part of the given sources).  Per §4.2 it produces one
placeholder stub whose callable name is derived from the property name and
whose body is a deliberate unimplemented marker. -/
def generate_property_body (property : String) : String :=
  "fn process_" ++ sanitizeIdent property ++ "_case(input: Input, expected: Expected) \x7b\n" ++
  "    unimplemented!()\n\x7d\n\n"

mutual

/-- Modelled from the spec (§3 literal values, §4.3 body generation):
rendering of a JSON literal into target-language literal syntax;
`use_maplit` selects the map-literal form. -/
def renderJson (use_maplit : Bool) : Json → String
  | .null => "None"
  | .bool b => if b then "true" else "false"
  | .num n => toString n
  | .str s => "\"" ++ s ++ "\""
  | .arr elems => "vec![" ++ renderJsonList use_maplit elems ++ "]"
  | .obj fields =>
    if use_maplit then "hashmap!\x7b" ++ renderJsonFields use_maplit fields ++ "\x7d"
    else "[" ++ renderJsonFields use_maplit fields ++ "].iter().cloned().collect()"

/-- Comma-separated rendering of a JSON array's elements. -/
def renderJsonList (use_maplit : Bool) : List Json → String
  | [] => ""
  | [x] => renderJson use_maplit x
  | x :: xs => renderJson use_maplit x ++ ", " ++ renderJsonList use_maplit xs

/-- Comma-separated rendering of a JSON object's fields. -/
def renderJsonFields (use_maplit : Bool) : List (String × Json) → String
  | [] => ""
  | [(k, v)] => "\"" ++ k ++ "\" => " ++ renderJson use_maplit v
  | (k, v) :: fields =>
    "\"" ++ k ++ "\" => " ++ renderJson use_maplit v ++ ", " ++
    renderJsonFields use_maplit fields

end

/-- Modelled from the spec (§4.3): the unit body calls the stubbed capability
`process_<property>_case` with the rendered input; an absent `expected` value
is the error-assertion form, distinguishable from an explicit null. -/
def mkBody (property : String) (input expected : Option Json) (use_maplit : Bool) : String :=
  let args :=
    match input with
    | some (Json.obj fields) =>
      String.intercalate ", " (fields.map (fun kv => renderJson use_maplit kv.2))
    | some j => renderJson use_maplit j
    | none => ""
  match expected with
  | none => "assert!(process_" ++ sanitizeIdent property ++ "_case(" ++ args ++ ").is_err());"
  | some e =>
    "process_" ++ sanitizeIdent property ++ "_case(" ++ args ++ ", " ++
    renderJson use_maplit e ++ ");"

/-- Modelled from the spec: `exercise::generate_test_function` lives in the
`exercise` crate, outside the given sources; only its call shape
`(case, use_maplit) -> Result<String>` is visible at the call site in
`parse_case`.  Per §4.3 the unit's name is the leaf's description
transliterated into an identifier, and every emitted unit carries the ignore
marker (the assembler later strips it from the first unit).  The call shape
passes no used-names state, so the generated name depends on the case alone. -/
def generate_test_function (case : Json) (use_maplit : Bool) : Except GenErr TestUnit :=
  match case.get "description" with
  | some (Json.str d) =>
    match case.get "property" with
    | some (Json.str p) =>
      Except.ok
        { name := "test_" ++ sanitizeIdent d
          property := p
          ignored := true
          body := mkBody p (case.get "input") (case.get "expected") use_maplit }
    | _ => Except.error GenErr.notAString
  | _ => Except.error GenErr.missingDescription

/-- Rendering of a generated unit into the suite document; the `#[ignore]`
marker appears exactly when the unit is disabled. -/
def renderTestUnit (u : TestUnit) : String :=
  "#[test]\n" ++ (if u.ignored then "#[ignore]\n" else "") ++
  "fn " ++ u.name ++ "() \x7b\n    " ++ u.body ++ "\n\x7d\n"

/-- `HashMap::contains_key` on the association-list model. -/
def containsKey (m : List (String × String)) (k : String) : Bool :=
  m.any (fun kv => kv.1 == k)

/-- Second half of `parse_case` (generate.rs lines 53–66): when a `property`
field is present it must be a string (`val_as!` fails otherwise); a stub is
inserted for it on first encounter, and the generated test function for the
whole case is pushed. -/
def parse_case_own (case : Json) (use_maplit : Bool) (st1 : ParseState) :
    Except GenErr ParseState :=
  match case.get "property" with
  | some (Json.str p) =>
    let st2 :=
      if containsKey st1.property_functions p then st1
      else
        { st1 with
          property_functions :=
            st1.property_functions ++ [(p, generate_property_body p)] }
    match generate_test_function case use_maplit with
    | Except.ok tf =>
      pure { st2 with test_functions := st2.test_functions ++ [tf] }
    | Except.error e => Except.error e
  | some _ => Except.error GenErr.notAString
  | none => pure st1

mutual

/-- Embeds `parse_case` (generate.rs lines 41–67): recurse into the `cases`
array first when present (erroring when the field is not an array), then
process the node's own `property`, if any (`parse_case_own`). -/
def parse_case (case : Json) (use_maplit : Bool) (st : ParseState) :
    Except GenErr ParseState := do
  let st1 ←
    match h : case.get "cases" with
    | some (Json.arr sub_cases) => parse_case_list sub_cases use_maplit st
    | some _ => Except.error GenErr.notAnArray
    | none => pure st
  parse_case_own case use_maplit st1
termination_by sizeOf case
decreasing_by
  have := Json.get_sizeOf h
  simp only [Json.arr.sizeOf_spec] at this
  omega

/-- The `for sub_case in ...` loop of `parse_case`, with the early return of
`?` on the first error. -/
def parse_case_list (cases : List Json) (use_maplit : Bool) (st : ParseState) :
    Except GenErr ParseState :=
  match cases with
  | [] => pure st
  | c :: rest => do
    let st' ← parse_case c use_maplit st
    parse_case_list rest use_maplit st'
termination_by sizeOf cases
decreasing_by
  all_goals simp only [List.cons.sizeOf_spec]
  all_goals omega

end

theorem except_ok_bind {ε α β : Type} (a : α) (f : α → Except ε β) :
    (Except.ok a >>= f) = f a := rfl

theorem except_error_bind {ε α β : Type} (e : ε) (f : α → Except ε β) :
    ((Except.error e : Except ε α) >>= f) = Except.error e := rfl

/-- Unfolding of `parse_case` on a node with no `cases` field: only the
node's own `property` is processed. -/
theorem parse_case_get_none {c : Json} (h : c.get "cases" = none)
    (uml : Bool) (st : ParseState) :
    parse_case c uml st = parse_case_own c uml st := by
  rw [parse_case]
  split
  · next h2 => rw [h] at h2; exact Option.noConfusion h2
  · next h2 => rw [h] at h2; exact Option.noConfusion h2
  · rfl

/-- Unfolding of `parse_case` on a node whose `cases` field is an array: the
children are parsed first, then the node's own `property`. -/
theorem parse_case_get_arr {c : Json} {xs : List Json}
    (h : c.get "cases" = some (Json.arr xs)) (uml : Bool) (st : ParseState) :
    parse_case c uml st =
      (parse_case_list xs uml st >>= fun st1 => parse_case_own c uml st1) := by
  rw [parse_case]
  split
  · next h2 =>
    rw [h] at h2
    cases h2
    rfl
  · next h2 h3 =>
    rw [h] at h3
    cases h3
    exact absurd rfl (h2 xs)
  · next h2 => rw [h] at h2; exact Option.noConfusion h2

/-- Unfolding of `parse_case` on a node whose `cases` field is present but
not an array: the run fails with the `val_as!` error. -/
theorem parse_case_get_bad {c : Json} {v : Json}
    (h : c.get "cases" = some v) (hv : ∀ xs, v ≠ Json.arr xs)
    (uml : Bool) (st : ParseState) :
    parse_case c uml st = Except.error GenErr.notAnArray := by
  rw [parse_case]
  split
  · next h2 =>
    rw [h] at h2
    cases h2
    next xs => exact absurd rfl (hv xs)
  · next h2 h3 => rfl
  · next h2 => rw [h] at h2; exact Option.noConfusion h2

/-- The house-keeping block of generate.rs lines 113–117: when the collected
test functions are nonempty, the first one is re-inserted with the literal
`#[ignore]` marker removed; on the record embedding this clears `ignored`. -/
def activate (u : TestUnit) : TestUnit := { u with ignored := false }

/-- Activation of the first collected unit (generate.rs lines 113–117).  The
empty list is left untouched, exactly as the `is_empty` guard does. -/
def activate_first : List TestUnit → List TestUnit
  | [] => []
  | f :: rest => activate f :: rest

/-- The provenance header written to the tests file before parsing
(generate.rs lines 88–101), with the existing tests-file content
(`get_tests_content`) interpolated. -/
def header (exercise_name tests_content : String) : String :=
  "//! Tests for " ++ exercise_name ++ " \n//! \n" ++
  "//! Generated by [utility][utility] using [canonical data][canonical_data]\n" ++
  "//! \n//! [utility]: https://github.com/exercism/rust/tree/master/util/exercise\n" ++
  "//! [canonical_data]: https://raw.githubusercontent.com/exercism/problem-specifications/master/exercises/" ++
  exercise_name ++ "/canonical-data.json\n\n" ++ tests_content ++ " \n"

/-- Embeds `generate_tests_from_canonical_data` (generate.rs lines 70–127).
The header is written to the tests file first; the top-level `cases` array is
parsed (`get!` fails when it is missing or not an array); on success the first
test function is activated, stubs are appended by iterating the hash map's
values in the unspecified enumeration order `values_order`, and the test
functions are appended joined by blank lines.  On a parse error the file is
left holding exactly the header already written. -/
def generate_tests_from_canonical_data (exercise_name tests_content : String)
    (canonical_data : Json) (use_maplit : Bool)
    (values_order : List (String × String) → List (String × String)) : GenOutput :=
  let hdr := header exercise_name tests_content
  match canonical_data.get "cases" with
  | some (Json.arr cases) =>
    match parse_case_list cases use_maplit ⟨[], []⟩ with
    | Except.error e => { fileContent := hdr, error := some e }
    | Except.ok st =>
      let test_functions := activate_first st.test_functions
      let stubs := String.join ((values_order st.property_functions).map Prod.snd)
      { fileContent :=
          hdr ++ stubs ++ String.intercalate "\n\n" (test_functions.map renderTestUnit)
        error := none }
  | some _ => { fileContent := hdr, error := some GenErr.notAnArray }
  | none => { fileContent := hdr, error := some GenErr.missingField }

/-- Spec data model (§3): one leaf test case — description, capability name,
named inputs, and an optional expected value (absence is the error form,
distinct from an explicit null). -/
structure LeafData where
  description : String
  property : String
  input : List (String × Json)
  expected : Option Json

/-- Spec data model (§3): a case node is either a leaf or a group of nested
case nodes; this is the valid (tagged-union) shape of canonical data. -/
inductive CaseNode where
  | leaf (data : LeafData)
  | group (description : String) (children : List CaseNode)

mutual

/-- JSON document corresponding to a valid case node, following the shape in
§6: groups carry `cases`, leaves carry `description`/`property`/`input` and
optionally `expected`. -/
def encodeCase : CaseNode → Json
  | .leaf l =>
    Json.obj
      ([("description", Json.str l.description), ("property", Json.str l.property),
        ("input", Json.obj l.input)] ++
        (match l.expected with
         | some e => [("expected", e)]
         | none => []))
  | .group d cs =>
    Json.obj [("description", Json.str d), ("cases", Json.arr (encodeList cs))]

/-- Element-wise encoding of a sequence of case nodes. -/
def encodeList : List CaseNode → List Json
  | [] => []
  | c :: cs => encodeCase c :: encodeList cs

end

mutual

/-- The flattener's leaf sequence (spec §4.1): depth-first, pre-order; a group
contributes only the leaves of its children, in order. -/
def leavesOf : CaseNode → List LeafData
  | .leaf l => [l]
  | .group _ cs => leavesOfList cs

/-- Pre-order leaf sequence of a forest of case nodes. -/
def leavesOfList : List CaseNode → List LeafData
  | [] => []
  | c :: cs => leavesOf c ++ leavesOfList cs

end

mutual

/-- Number of leaf nodes of a case tree, counted recursively through all
levels of group nesting (spec §8, leaf count preservation). -/
def countLeaves : CaseNode → Nat
  | .leaf _ => 1
  | .group _ cs => countLeavesList cs

/-- Number of leaf nodes of a forest of case trees. -/
def countLeavesList : List CaseNode → Nat
  | [] => 0
  | c :: cs => countLeaves c + countLeavesList cs

end

/-- Property names of the leaves of a forest, in pre-order. -/
def propsOfList (cs : List CaseNode) : List String :=
  (leavesOfList cs).map LeafData.property

/-- The first-encounter stub insertion of `parse_case` (generate.rs lines
56-61): a stub is added only when the property name has no entry yet. -/
def addProp (acc : List (String × String)) (p : String) : List (String × String) :=
  if containsKey acc p then acc
  else acc ++ [(p, generate_property_body p)]

/-- Accumulated stub map after processing the given property names in order. -/
def stubsFold (acc : List (String × String)) (ps : List String) : List (String × String) :=
  ps.foldl addProp acc

/-- The test unit generated for a leaf (the result of
`generate_test_function` on the leaf's JSON encoding). -/
def unitOfLeaf (use_maplit : Bool) (l : LeafData) : TestUnit :=
  { name := "test_" ++ sanitizeIdent l.description
    property := l.property
    ignored := true
    body := mkBody l.property (some (Json.obj l.input)) l.expected use_maplit }

theorem encode_leaf_get_cases (l : LeafData) : (encodeCase (.leaf l)).get "cases" = none := by
  obtain ⟨d, p, inp, exp⟩ := l
  cases exp <;> simp [encodeCase, Json.get, lookupField]

theorem encode_leaf_get_property (l : LeafData) :
    (encodeCase (.leaf l)).get "property" = some (Json.str l.property) := by
  obtain ⟨d, p, inp, exp⟩ := l
  cases exp <;> simp [encodeCase, Json.get, lookupField]

theorem gtf_encode_leaf (uml : Bool) (l : LeafData) :
    generate_test_function (encodeCase (.leaf l)) uml = Except.ok (unitOfLeaf uml l) := by
  obtain ⟨d, p, inp, exp⟩ := l
  cases exp <;>
    simp [encodeCase, generate_test_function, Json.get, lookupField, unitOfLeaf, mkBody]

theorem encode_group_get_cases (d : String) (cs : List CaseNode) :
    (encodeCase (.group d cs)).get "cases" = some (Json.arr (encodeList cs)) := by
  simp [encodeCase, Json.get, lookupField]

theorem encode_group_get_property (d : String) (cs : List CaseNode) :
    (encodeCase (.group d cs)).get "property" = none := by
  simp [encodeCase, Json.get, lookupField]

mutual

/-- Refinement of the flattener contract (§4.1) by `parse_case`: on the JSON
encoding of a valid case node, parsing succeeds, appends the node's leaves'
test units in pre-order, and inserts one stub per first-encountered property
name. -/
theorem parse_case_encode (c : CaseNode) (uml : Bool) (st : ParseState) :
    parse_case (encodeCase c) uml st =
      Except.ok
        ⟨stubsFold st.property_functions ((leavesOf c).map LeafData.property),
         st.test_functions ++ (leavesOf c).map (unitOfLeaf uml)⟩ := by
  cases c with
  | leaf l =>
    rw [parse_case_get_none (encode_leaf_get_cases l)]
    simp only [parse_case_own, encode_leaf_get_property, gtf_encode_leaf]
    by_cases hc : containsKey st.property_functions l.property <;>
      simp [hc, leavesOf, stubsFold, addProp, pure, Except.pure]
  | group d cs =>
    rw [parse_case_get_arr (encode_group_get_cases d cs),
      parse_case_list_encode cs uml st, except_ok_bind]
    simp only [parse_case_own, encode_group_get_property]
    simp [leavesOf, propsOfList, pure, Except.pure]
termination_by sizeOf c
decreasing_by
  simp only [CaseNode.group.sizeOf_spec]
  omega

/-- Refinement of the flattener on a forest: folding `parse_case` over the
encoded children in order. -/
theorem parse_case_list_encode (cs : List CaseNode) (uml : Bool) (st : ParseState) :
    parse_case_list (encodeList cs) uml st =
      Except.ok
        ⟨stubsFold st.property_functions (propsOfList cs),
         st.test_functions ++ (leavesOfList cs).map (unitOfLeaf uml)⟩ := by
  cases cs with
  | nil =>
    simp [encodeList, parse_case_list, leavesOfList, propsOfList, stubsFold, pure,
      Except.pure]
  | cons c rest =>
    simp only [encodeList]
    rw [parse_case_list]
    rw [parse_case_encode c uml st, except_ok_bind]
    rw [parse_case_list_encode rest uml
      ⟨stubsFold st.property_functions ((leavesOf c).map LeafData.property),
       st.test_functions ++ (leavesOf c).map (unitOfLeaf uml)⟩]
    simp [leavesOfList, propsOfList, stubsFold, List.foldl_append, List.map_append,
      List.append_assoc]
termination_by sizeOf cs
decreasing_by
  all_goals simp only [List.cons.sizeOf_spec]
  all_goals omega

end

/-- JSON document with a top-level `cases` array holding the encodings of a
valid forest of case nodes — the well-formed canonical-data shape of §6. -/
def canonicalJson (cases : List CaseNode) : Json :=
  Json.obj [("cases", Json.arr (encodeList cases))]

/-- Closed form of a full generation run on well-formed canonical data: the
run succeeds and the tests file holds the header, then the stub bodies in the
hash map's enumeration order, then the test units (first one activated) joined
by blank lines. -/
theorem generate_valid_eq (exercise_name tests_content : String) (cases : List CaseNode)
    (uml : Bool) (ord : List (String × String) → List (String × String)) :
    generate_tests_from_canonical_data exercise_name tests_content
        (canonicalJson cases) uml ord =
      { fileContent :=
          header exercise_name tests_content ++
          String.join ((ord (stubsFold [] (propsOfList cases))).map Prod.snd) ++
          String.intercalate "\n\n"
            ((activate_first ((leavesOfList cases).map (unitOfLeaf uml))).map renderTestUnit)
        error := none } := by
  have hget : (canonicalJson cases).get "cases" = some (Json.arr (encodeList cases)) := by
    simp [canonicalJson, Json.get, lookupField]
  unfold generate_tests_from_canonical_data
  simp only [hget, parse_case_list_encode cases uml ⟨[], []⟩]
  simp [stubsFold]

mutual

/-- The recursive leaf count of a case tree agrees with the length of its
flattened leaf sequence. -/
theorem countLeaves_eq_length (c : CaseNode) : countLeaves c = (leavesOf c).length := by
  cases c with
  | leaf l => simp [countLeaves, leavesOf]
  | group d cs => simp [countLeaves, leavesOf, countLeavesList_eq_length cs]
termination_by sizeOf c
decreasing_by
  all_goals try simp only [CaseNode.group.sizeOf_spec]
  all_goals omega

/-- The recursive leaf count of a forest agrees with the length of its
flattened leaf sequence. -/
theorem countLeavesList_eq_length (cs : List CaseNode) :
    countLeavesList cs = (leavesOfList cs).length := by
  cases cs with
  | nil => simp [countLeavesList, leavesOfList]
  | cons c rest =>
    simp [countLeavesList, leavesOfList, countLeaves_eq_length c,
      countLeavesList_eq_length rest]
termination_by sizeOf cs
decreasing_by
  all_goals try simp only [List.cons.sizeOf_spec]
  all_goals omega

end

/-- First-encounter sequence of property names: the key order produced by the
stub insertions. -/
def foldProps (ks : List String) (ps : List String) : List String :=
  ps.foldl (fun acc p => if p ∈ acc then acc else acc ++ [p]) ks

theorem containsKey_iff (m : List (String × String)) (k : String) :
    containsKey m k = true ↔ k ∈ m.map Prod.fst := by
  simp [containsKey, List.any_eq_true, List.mem_map, beq_iff_eq]

theorem addProp_keys (acc : List (String × String)) (p : String) :
    (addProp acc p).map Prod.fst =
      if p ∈ acc.map Prod.fst then acc.map Prod.fst else acc.map Prod.fst ++ [p] := by
  by_cases hm : p ∈ acc.map Prod.fst
  · simp [addProp, (containsKey_iff acc p).mpr hm, hm]
  · have hc : ¬ containsKey acc p = true := fun hc => hm ((containsKey_iff acc p).mp hc)
    simp [addProp, hc, hm]

theorem stubsFold_keys (ps : List String) (acc : List (String × String)) :
    (stubsFold acc ps).map Prod.fst = foldProps (acc.map Prod.fst) ps := by
  induction ps generalizing acc with
  | nil => simp [stubsFold, foldProps]
  | cons p rest ih =>
    have h1 : stubsFold acc (p :: rest) = stubsFold (addProp acc p) rest := rfl
    have h2 : foldProps (acc.map Prod.fst) (p :: rest) =
        foldProps
          (if p ∈ acc.map Prod.fst then acc.map Prod.fst else acc.map Prod.fst ++ [p])
          rest := rfl
    rw [h1, h2, ih (addProp acc p), addProp_keys]

theorem mem_foldProps (ps : List String) (ks : List String) (x : String) :
    x ∈ foldProps ks ps ↔ x ∈ ks ∨ x ∈ ps := by
  induction ps generalizing ks with
  | nil => simp [foldProps]
  | cons p rest ih =>
    have h2 : foldProps ks (p :: rest) = foldProps (if p ∈ ks then ks else ks ++ [p]) rest :=
      rfl
    rw [h2, ih]
    by_cases hp : p ∈ ks <;> by_cases hx : x = p <;>
      simp [hp, hx, List.mem_cons, List.mem_append]

theorem nodup_foldProps (ps : List String) (ks : List String) (hk : ks.Nodup) :
    (foldProps ks ps).Nodup := by
  induction ps generalizing ks with
  | nil => simpa [foldProps] using hk
  | cons p rest ih =>
    have h2 : foldProps ks (p :: rest) = foldProps (if p ∈ ks then ks else ks ++ [p]) rest :=
      rfl
    rw [h2]
    by_cases hp : p ∈ ks
    · rw [if_pos hp]
      exact ih ks hk
    · rw [if_neg hp]
      refine ih _ ?_
      simp [List.nodup_append, hk, hp]

/-- The first-encounter sequence of names is a permutation of the list of
distinct names. -/
theorem foldProps_perm_dedup (ps : List String) : (foldProps [] ps).Perm ps.dedup := by
  apply List.perm_of_nodup_nodup_toFinset_eq (nodup_foldProps ps [] (by simp))
    ps.nodup_dedup
  ext x
  simp [List.mem_toFinset, mem_foldProps, List.mem_dedup]

/-- The stub map holds exactly one entry per distinct property name. -/
theorem stubsFold_length (ps : List String) :
    (stubsFold [] ps).length = ps.dedup.length := by
  have h1 : (stubsFold [] ps).length = ((stubsFold [] ps).map Prod.fst).length := by simp
  rw [h1, stubsFold_keys]
  simpa using (foldProps_perm_dedup ps).length_eq

/-- All units generated from leaves are disabled before activation. -/
theorem filter_map_unitOfLeaf (uml : Bool) (ls : List LeafData) :
    (ls.map (unitOfLeaf uml)).filter (fun u => !u.ignored) = [] := by
  induction ls with
  | nil => rfl
  | cons l rest ih => simp [unitOfLeaf, ih]

/-- C6: for every case tree, the number of generated test units equals the
number of leaf nodes, counted recursively through all levels of group
nesting. -/
theorem c6_leaf_count (cases : List CaseNode) (uml : Bool) :
    (parse_case_list (encodeList cases) uml ⟨[], []⟩).map
        (fun st => st.test_functions.length) =
      Except.ok (countLeavesList cases) := by
  rw [parse_case_list_encode]
  simp [Except.map, countLeavesList_eq_length]

/-- C7: the number of generated stubs equals the number of distinct property
values among all leaves, independent of how many leaves share a property; the
stub map's keys are exactly the first-encounter sequence of property names
(one stub created on first encounter, never duplicated). -/
theorem c7_stub_count (cases : List CaseNode) (uml : Bool) :
    (parse_case_list (encodeList cases) uml ⟨[], []⟩).map
        (fun st => st.property_functions.length) =
      Except.ok ((propsOfList cases).dedup.length) ∧
    (parse_case_list (encodeList cases) uml ⟨[], []⟩).map
        (fun st => st.property_functions.map Prod.fst) =
      Except.ok (foldProps [] (propsOfList cases)) := by
  constructor
  · rw [parse_case_list_encode]
    simp [Except.map, stubsFold_length]
  · rw [parse_case_list_encode]
    have := stubsFold_keys (propsOfList cases) []
    simp only [List.map_nil] at this
    simp [Except.map, this]

/-- C9: flattening is a depth-first pre-order traversal — the collected test
units are exactly the units of the pre-order leaf sequence, in document
order, with groups contributing no unit of their own; in particular three
singly-nested groups holding one leaf yield exactly that leaf first, in
document order, independent of nesting depth. -/
theorem c9_preorder_flatten (cases : List CaseNode) (uml : Bool) :
    (parse_case_list (encodeList cases) uml ⟨[], []⟩).map
        (fun st => st.test_functions) =
      Except.ok ((leavesOfList cases).map (unitOfLeaf uml)) ∧
    leavesOfList
        [CaseNode.group "g1" [CaseNode.group "g2" [CaseNode.group "g3"
          [CaseNode.leaf ⟨"x", "p", [], none⟩]]],
         CaseNode.leaf ⟨"y", "q", [], none⟩,
         CaseNode.leaf ⟨"z", "r", [], none⟩] =
      [⟨"x", "p", [], none⟩, ⟨"y", "q", [], none⟩, ⟨"z", "r", [], none⟩] := by
  constructor
  · rw [parse_case_list_encode]
    simp [Except.map]
  · simp [leavesOfList, leavesOf]

/-- C2: whenever the tree has at least one leaf, the unit generated from the
first pre-order leaf is activated, every subsequent unit stays disabled,
exactly one unit of the assembled sequence is active, and the assembled
document renders exactly those units. -/
theorem c2_single_active_unit (cases : List CaseNode) (uml : Bool)
    (l0 : LeafData) (rest : List LeafData)
    (h : leavesOfList cases = l0 :: rest) :
    (parse_case_list (encodeList cases) uml ⟨[], []⟩).map
        (fun st => activate_first st.test_functions) =
      Except.ok (activate (unitOfLeaf uml l0) :: rest.map (unitOfLeaf uml)) ∧
    (activate (unitOfLeaf uml l0)).ignored = false ∧
    (activate (unitOfLeaf uml l0) :: rest.map (unitOfLeaf uml)).filter
        (fun u => !u.ignored) = [activate (unitOfLeaf uml l0)] ∧
    (∀ u ∈ rest.map (unitOfLeaf uml), u.ignored = true) ∧
    ∀ en tc ord,
      generate_tests_from_canonical_data en tc (canonicalJson cases) uml ord =
        { fileContent :=
            header en tc ++
            String.join ((ord (stubsFold [] (propsOfList cases))).map Prod.snd) ++
            String.intercalate "\n\n"
              ((activate (unitOfLeaf uml l0) :: rest.map (unitOfLeaf uml)).map
                renderTestUnit)
          error := none } := by
  refine ⟨?_, rfl, ?_, ?_, ?_⟩
  · rw [parse_case_list_encode]
    simp [Except.map, h, activate_first]
  · simp [List.filter_cons, activate, filter_map_unitOfLeaf]
  · intro u hu
    obtain ⟨l, _, rfl⟩ := List.mem_map.mp hu
    rfl
  · intro en tc ord
    rw [generate_valid_eq, h]
    simp [activate_first]

def c2cases : List CaseNode :=
  [CaseNode.group "g" [CaseNode.leaf ⟨"one", "add", [], none⟩,
    CaseNode.leaf ⟨"two", "add", [], none⟩]]

def c2l0 : LeafData := ⟨"one", "add", [], none⟩

def c2rest : List LeafData := [⟨"two", "add", [], none⟩]

/-- Witness for C2: a tree with one group holding two leaves. -/
theorem c2_single_active_unit_witness :
    leavesOfList c2cases = c2l0 :: c2rest ∧
    ((parse_case_list (encodeList c2cases) false ⟨[], []⟩).map
        (fun st => activate_first st.test_functions) =
      Except.ok (activate (unitOfLeaf false c2l0) :: c2rest.map (unitOfLeaf false)) ∧
    (activate (unitOfLeaf false c2l0)).ignored = false ∧
    (activate (unitOfLeaf false c2l0) :: c2rest.map (unitOfLeaf false)).filter
        (fun u => !u.ignored) = [activate (unitOfLeaf false c2l0)] ∧
    (∀ u ∈ c2rest.map (unitOfLeaf false), u.ignored = true) ∧
    ∀ en tc ord,
      generate_tests_from_canonical_data en tc (canonicalJson c2cases) false ord =
        { fileContent :=
            header en tc ++
            String.join ((ord (stubsFold [] (propsOfList c2cases))).map Prod.snd) ++
            String.intercalate "\n\n"
              ((activate (unitOfLeaf false c2l0) :: c2rest.map (unitOfLeaf false)).map
                renderTestUnit)
          error := none }) :=
  ⟨by simp [c2cases, c2l0, c2rest, leavesOfList, leavesOf],
   c2_single_active_unit c2cases false c2l0 c2rest
     (by simp [c2cases, c2l0, c2rest, leavesOfList, leavesOf])⟩

def c4cases : List CaseNode :=
  [CaseNode.group "one" [CaseNode.leaf ⟨"basic case", "prop", [], none⟩],
   CaseNode.group "two" [CaseNode.leaf ⟨"basic case", "prop", [], none⟩]]

/-- C4 counterexample: two leaves with the identical description
`basic case` under different groups produce two test units carrying the same
identifier — no numeric suffix is appended, so the claimed name uniqueness
fails on this input. -/
theorem c4_counterexample :
    (parse_case_list (encodeList c4cases) false ⟨[], []⟩).map
        (fun st => st.test_functions.map TestUnit.name) =
      Except.ok ["test_basic_case", "test_basic_case"] ∧
    ¬ (["test_basic_case", "test_basic_case"] : List String).Nodup := by
  constructor
  · rw [parse_case_list_encode]
    have hl : leavesOfList c4cases =
        [⟨"basic case", "prop", [], none⟩, ⟨"basic case", "prop", [], none⟩] := by
      simp [c4cases, leavesOfList, leavesOf]
    simp only [Except.map, hl]
    rfl
  · decide

/-- C4 (amended): each test unit's identifier is derived from its leaf's
description alone — no used-names set is threaded through parsing, so leaves
with identical descriptions receive identical identifiers and no suffix is
ever appended. -/
theorem c4_names_from_descriptions (cases : List CaseNode) (uml : Bool) :
    (parse_case_list (encodeList cases) uml ⟨[], []⟩).map
        (fun st => st.test_functions.map TestUnit.name) =
      Except.ok
        ((leavesOfList cases).map (fun l => "test_" ++ sanitizeIdent l.description)) := by
  rw [parse_case_list_encode]
  simp [Except.map, unitOfLeaf, Function.comp]

def c1cases : List CaseNode :=
  [CaseNode.leaf ⟨"a", "propa", [], none⟩, CaseNode.leaf ⟨"b", "propb", [], none⟩]

set_option maxRecDepth 40000 in
/-- C1: determinism fails on the code — the stub section is emitted by
iterating `HashMap::values()` whose enumeration order is unspecified and
varies between runs; the identity and the reversed enumerations of the same
two-entry stub map are both possible, both runs succeed, and they produce
different output bytes. -/
theorem c1_hashmap_order_nondeterminism :
    (generate_tests_from_canonical_data "alpha" "" (canonicalJson c1cases) false
        (fun l => l)).error = none ∧
    (generate_tests_from_canonical_data "alpha" "" (canonicalJson c1cases) false
        List.reverse).error = none ∧
    (generate_tests_from_canonical_data "alpha" "" (canonicalJson c1cases) false
        (fun l => l)).fileContent ≠
      (generate_tests_from_canonical_data "alpha" "" (canonicalJson c1cases) false
        List.reverse).fileContent := by
  have hl : leavesOfList c1cases = [⟨"a", "propa", [], none⟩, ⟨"b", "propb", [], none⟩] := by
    simp [c1cases, leavesOfList, leavesOf]
  refine ⟨?_, ?_, ?_⟩
  · rw [generate_valid_eq]
  · rw [generate_valid_eq]
  · rw [generate_valid_eq, generate_valid_eq]
    simp only [propsOfList, hl]
    decide

def c3badProp : Json :=
  Json.obj [("cases", Json.arr [Json.obj [("description", Json.str "d"),
    ("property", Json.num 5)]])]

def c3missingProp : Json :=
  Json.obj [("cases", Json.arr [Json.obj [("description", Json.str "d")]])]

theorem c3badProp_parse :
    parse_case_list [Json.obj [("description", Json.str "d"), ("property", Json.num 5)]]
        false ⟨[], []⟩ = Except.error GenErr.notAString := by
  rw [parse_case_list, parse_case_get_none (by rfl)]
  rfl

theorem c3missingProp_parse :
    parse_case_list [Json.obj [("description", Json.str "d")]] false ⟨[], []⟩ =
      Except.ok ⟨[], []⟩ := by
  rw [parse_case_list, parse_case_get_none (by rfl)]
  show parse_case_list [] false ⟨[], []⟩ = Except.ok ⟨[], []⟩
  rw [parse_case_list]
  rfl

/-- On any failing generation run, the tests file is left holding exactly the
header that `fs::write` put there before parsing — the error aborts before
stubs or units are appended, but after the header write. -/
theorem generate_error_state (en tc : String) (cd : Json) (uml : Bool)
    (ord : List (String × String) → List (String × String)) (e : GenErr)
    (h : (generate_tests_from_canonical_data en tc cd uml ord).error = some e) :
    (generate_tests_from_canonical_data en tc cd uml ord).fileContent = header en tc := by
  cases hg : cd.get "cases" with
  | none =>
    unfold generate_tests_from_canonical_data
    simp [hg]
  | some v =>
    cases v with
    | arr cs =>
      cases hp : parse_case_list cs uml ⟨[], []⟩ with
      | error e2 =>
        unfold generate_tests_from_canonical_data
        simp [hg, hp]
      | ok st =>
        exfalso
        unfold generate_tests_from_canonical_data at h
        simp [hg, hp] at h
    | null =>
      unfold generate_tests_from_canonical_data
      simp [hg]
    | bool b =>
      unfold generate_tests_from_canonical_data
      simp [hg]
    | num n =>
      unfold generate_tests_from_canonical_data
      simp [hg]
    | str s =>
      unfold generate_tests_from_canonical_data
      simp [hg]
    | obj fields =>
      unfold generate_tests_from_canonical_data
      simp [hg]

/-- C3 counterexample: a leaf with a non-string `property` fails the run, yet
the tests file is left holding the (nonempty) header — partial output remains
written on error; and a case with no `property` field at all does not fail
the run. -/
theorem c3_counterexample :
    (generate_tests_from_canonical_data "ex" "preamble" c3badProp false
        (fun l => l)).error = some GenErr.notAString ∧
    (generate_tests_from_canonical_data "ex" "preamble" c3badProp false
        (fun l => l)).fileContent = header "ex" "preamble" ∧
    header "ex" "preamble" ≠ "" ∧
    (generate_tests_from_canonical_data "ex" "preamble" c3missingProp false
        (fun l => l)).error = none := by
  have hg1 : c3badProp.get "cases" =
      some (Json.arr [Json.obj [("description", Json.str "d"),
        ("property", Json.num 5)]]) := rfl
  have hg2 : c3missingProp.get "cases" =
      some (Json.arr [Json.obj [("description", Json.str "d")]]) := rfl
  refine ⟨?_, ?_, by decide, ?_⟩
  · unfold generate_tests_from_canonical_data
    simp only [hg1, c3badProp_parse]
  · unfold generate_tests_from_canonical_data
    simp only [hg1, c3badProp_parse]
  · unfold generate_tests_from_canonical_data
    simp only [hg2, c3missingProp_parse]

/-- C3 (amended): malformed input (a non-string `property`, a missing or
non-array `cases`) fails the run with an error before any stub or unit is
appended, but the header content written before parsing remains as the tests
file's content — partial output is left on error; a case node lacking a
`property` field is not treated as malformed and is silently skipped. -/
theorem c3_malformed_error_state :
    (∀ en tc cd uml ord e,
      (generate_tests_from_canonical_data en tc cd uml ord).error = some e →
      (generate_tests_from_canonical_data en tc cd uml ord).fileContent = header en tc) ∧
    (generate_tests_from_canonical_data "ex" "preamble" c3badProp false
        (fun l => l)).error = some GenErr.notAString ∧
    (generate_tests_from_canonical_data "ex" "preamble" c3missingProp false
        (fun l => l)).error = none := by
  have hg1 : c3badProp.get "cases" =
      some (Json.arr [Json.obj [("description", Json.str "d"),
        ("property", Json.num 5)]]) := rfl
  have hg2 : c3missingProp.get "cases" =
      some (Json.arr [Json.obj [("description", Json.str "d")]]) := rfl
  refine ⟨fun en tc cd uml ord e h => generate_error_state en tc cd uml ord e h, ?_, ?_⟩
  · unfold generate_tests_from_canonical_data
    simp only [hg1, c3badProp_parse]
  · unfold generate_tests_from_canonical_data
    simp only [hg2, c3missingProp_parse]

/-- Witness for C3: the error-state implication applied at a concrete
erroring input. -/
theorem c3_malformed_error_state_witness :
    (generate_tests_from_canonical_data "ex" "preamble" c3badProp false
        (fun l => l)).error = some GenErr.notAString ∧
    (generate_tests_from_canonical_data "ex" "preamble" c3badProp false
        (fun l => l)).fileContent = header "ex" "preamble" :=
  ⟨c3_malformed_error_state.2.1,
   c3_malformed_error_state.1 "ex" "preamble" c3badProp false (fun l => l)
     GenErr.notAString c3_malformed_error_state.2.1⟩

def c5cases : List CaseNode :=
  [CaseNode.leaf ⟨"a", "alpha", [], none⟩, CaseNode.leaf ⟨"b", "beta", [], none⟩]

set_option maxRecDepth 40000 in
/-- C5 counterexample: under the reversed (equally possible) hash-map
enumeration, the assembled document is not the one with the stubs rendered in
first-encounter order — the claimed rendering order fails for this run. -/
theorem c5_counterexample :
    generate_tests_from_canonical_data "ex" "" (canonicalJson c5cases) false
        List.reverse ≠
      { fileContent :=
          header "ex" "" ++
          String.join ((stubsFold [] (propsOfList c5cases)).map Prod.snd) ++
          String.intercalate "\n\n"
            ((activate_first ((leavesOfList c5cases).map (unitOfLeaf false))).map
              renderTestUnit)
        error := none } := by
  have hl : leavesOfList c5cases = [⟨"a", "alpha", [], none⟩, ⟨"b", "beta", [], none⟩] := by
    simp [c5cases, leavesOfList, leavesOf]
  rw [generate_valid_eq]
  simp only [propsOfList, hl]
  decide

/-- C5 (amended): the stub map holds exactly one entry per distinct property
name (keys a permutation of the distinct names), and the assembler renders
the stub section — one body per entry — before all test units; but the
rendering order is the hash map's unspecified enumeration order, not
first-encounter order. -/
theorem c5_stub_render (exercise_name tests_content : String) (cases : List CaseNode)
    (uml : Bool) (ord : List (String × String) → List (String × String))
    (h : (ord (stubsFold [] (propsOfList cases))).Perm (stubsFold [] (propsOfList cases))) :
    generate_tests_from_canonical_data exercise_name tests_content
        (canonicalJson cases) uml ord =
      { fileContent :=
          header exercise_name tests_content ++
          String.join ((ord (stubsFold [] (propsOfList cases))).map Prod.snd) ++
          String.intercalate "\n\n"
            ((activate_first ((leavesOfList cases).map (unitOfLeaf uml))).map
              renderTestUnit)
        error := none } ∧
    ((ord (stubsFold [] (propsOfList cases))).map Prod.fst).Perm
      ((propsOfList cases).dedup) := by
  refine ⟨generate_valid_eq exercise_name tests_content cases uml ord, ?_⟩
  refine (h.map Prod.fst).trans ?_
  rw [stubsFold_keys]
  simpa using foldProps_perm_dedup (propsOfList cases)

/-- Witness for C5: the identity enumeration on a two-property tree. -/
theorem c5_stub_render_witness :
    ((fun l => l) (stubsFold [] (propsOfList c5cases))).Perm
      (stubsFold [] (propsOfList c5cases)) ∧
    (generate_tests_from_canonical_data "ex" "" (canonicalJson c5cases) false
        (fun l => l) =
      { fileContent :=
          header "ex" "" ++
          String.join (((fun l => l) (stubsFold [] (propsOfList c5cases))).map Prod.snd) ++
          String.intercalate "\n\n"
            ((activate_first ((leavesOfList c5cases).map (unitOfLeaf false))).map
              renderTestUnit)
        error := none } ∧
    (((fun l => l) (stubsFold [] (propsOfList c5cases))).map Prod.fst).Perm
      ((propsOfList c5cases).dedup)) :=
  ⟨List.Perm.refl _,
   c5_stub_render "ex" "" c5cases false (fun l => l) (List.Perm.refl _)⟩

theorem string_append_empty (s : String) : s ++ "" = s := by
  apply String.ext
  rw [String.data_append]
  show s.data ++ [] = s.data
  exact List.append_nil s.data

/-- C8: an empty `cases` array does not crash the generator — flattening
yields the empty state and the assembled document is exactly the header, with
zero stubs and zero test units. -/
theorem c8_empty_cases (exercise_name tests_content : String) (uml : Bool)
    (ord : List (String × String) → List (String × String)) (h : ord [] = []) :
    generate_tests_from_canonical_data exercise_name tests_content
        (Json.obj [("cases", Json.arr [])]) uml ord =
      { fileContent := header exercise_name tests_content, error := none } ∧
    parse_case_list [] uml ⟨[], []⟩ = Except.ok ⟨[], []⟩ := by
  constructor
  · have hg := generate_valid_eq exercise_name tests_content [] uml ord
    have he : encodeList [] = [] := by rw [encodeList]
    rw [canonicalJson, he] at hg
    rw [hg]
    have hle : leavesOfList ([] : List CaseNode) = [] := by rw [leavesOfList]
    simp only [propsOfList, hle, List.map_nil, stubsFold, List.foldl_nil, h,
      activate_first]
    have hs : header exercise_name tests_content ++ String.join [] ++
        "\n\n".intercalate ([] : List String) = header exercise_name tests_content := by
      show _ ++ "" ++ "" = _
      rw [string_append_empty, string_append_empty]
    rw [hs]
  · rw [parse_case_list]
    rfl

/-- Witness for C8: the identity enumeration and a concrete exercise name. -/
theorem c8_empty_cases_witness :
    ((fun l : List (String × String) => l) [] = []) ∧
    (generate_tests_from_canonical_data "ex" "preamble"
        (Json.obj [("cases", Json.arr [])]) false (fun l => l) =
      { fileContent := header "ex" "preamble", error := none } ∧
    parse_case_list [] false ⟨[], []⟩ = Except.ok ⟨[], []⟩) :=
  ⟨rfl, c8_empty_cases "ex" "preamble" false (fun l => l) rfl⟩

/-- JSON case node that is both a group and a leaf: it carries a `cases`
array of valid children and its own `property`, `description` and `input`
fields (a hybrid the spec's tagged union excludes). -/
def hybridJson (d p : String) (children : List CaseNode) : Json :=
  Json.obj [("description", Json.str d), ("property", Json.str p),
    ("input", Json.obj []), ("cases", Json.arr (encodeList children))]

/-- The test unit generated for the hybrid node itself. -/
def hybridUnit (d p : String) (uml : Bool) : TestUnit :=
  { name := "test_" ++ sanitizeIdent d
    property := p
    ignored := true
    body := mkBody p (some (Json.obj [])) none uml }

/-- C10: on a node carrying both `cases` and `property`, `parse_case`
recurses into all children first and only then emits the node's own test
unit, so the node's own unit appears after every unit of its descendants. -/
theorem c10_hybrid_own_unit_last (d p : String) (children : List CaseNode)
    (uml : Bool) (st : ParseState) :
    parse_case (hybridJson d p children) uml st =
      Except.ok
        ⟨addProp (stubsFold st.property_functions (propsOfList children)) p,
         st.test_functions ++ (leavesOfList children).map (unitOfLeaf uml) ++
           [hybridUnit d p uml]⟩ := by
  have hget : (hybridJson d p children).get "cases" =
      some (Json.arr (encodeList children)) := by
    simp [hybridJson, Json.get, lookupField]
  have hprop : (hybridJson d p children).get "property" = some (Json.str p) := by
    simp [hybridJson, Json.get, lookupField]
  have hgtf : generate_test_function (hybridJson d p children) uml =
      Except.ok (hybridUnit d p uml) := by
    simp [generate_test_function, hybridJson, Json.get, lookupField, hybridUnit]
  rw [parse_case_get_arr hget, parse_case_list_encode children uml st, except_ok_bind]
  simp only [parse_case_own, hprop, hgtf]
  by_cases hc :
      containsKey (stubsFold st.property_functions (propsOfList children)) p <;>
    simp [hc, addProp, pure, Except.pure, List.append_assoc]
